import Mathlib

/-!
Shallow embedding of the hybrid retrieval engine of `agentic-proof-pack`
(src/app/retrieval.py, src/app/faiss_index.py, src/app/reranker.py).

Modelling conventions:
* Python `int` is `Int`; loop counters that start at 0 and only grow are `Nat`.
* Floating-point relevance scores are modelled as `ℚ`; the claims settled here
  are structural (lengths, membership, permutations, index bounds, score
  formulas), not about rounding.
* Calls into numeric libraries (sklearn TF-IDF scoring, BM25Okapi.get_scores,
  rapidfuzz token_set_ratio, the FAISS inner products, CrossEncoder.predict)
  are treated as opaque score functions carried as fields of the model; what
  the repository's own code does with those scores is embedded faithfully.
* `str.strip` is modelled by `pyStrip` (drop whitespace on both ends),
  `"\n".join` by `pyJoin`, list slicing `xs[s:e]` by `pySlice` (including
  Python's negative-stop wrap-around), `re.findall("[A-Za-z0-9_]+")` plus
  lowercasing by `pyTokenize`.
-/

/-- Python `str.strip()` on the character list: drop whitespace from both ends. -/
def stripChars (l : List Char) : List Char :=
  ((l.dropWhile Char.isWhitespace).reverse.dropWhile Char.isWhitespace).reverse

/-- Python `s.strip()`. -/
def pyStrip (s : String) : String :=
  ⟨stripChars s.data⟩

/-- Python `sep.join(xs)`. -/
def pyJoin (sep : String) : List String → String
  | [] => ""
  | [x] => x
  | x :: y :: rest => x ++ sep ++ pyJoin sep (y :: rest)

/-- Python `xs[start:stop]` for a non-negative `start` and an arbitrary
integer `stop` (a negative stop counts from the end of the list). -/
def pySlice (xs : List String) (start : Nat) (stop : Int) : List String :=
  (xs.take (if stop < 0 then ((xs.length : Int) + stop).toNat else stop.toNat)).drop start

/-- A character matched by the tokenizer regex `[A-Za-z0-9_]`. -/
def isTokenChar (c : Char) : Bool :=
  c.isAlphanum || c = '_'

/-- Maximal runs of token characters (the `re.findall` loop), with an
accumulator holding the current run in reverse. -/
def tokenRuns : List Char → List Char → List (List Char)
  | [], acc => if acc.isEmpty then [] else [acc.reverse]
  | c :: rest, acc =>
    if isTokenChar c then tokenRuns rest (c :: acc)
    else if acc.isEmpty then tokenRuns rest []
    else acc.reverse :: tokenRuns rest []

/-- `_tokenize` from retrieval.py: `[t.lower() for t in _token_re.findall(text)]`. -/
def pyTokenize (s : String) : List String :=
  (tokenRuns s.data []).map (fun cs => ⟨cs.map Char.toLower⟩)

/-- The loop increment of `make_chunks`: `max(1, stride)`. -/
def chunkStep (stride : Int) : Nat :=
  (max 1 stride).toNat

/-- The window end `e = min(n - 1, i + window - 1)` of `make_chunks`. -/
def chunkEnd (n : Nat) (window : Int) (i : Nat) : Int :=
  min ((n : Int) - 1) ((i : Int) + window - 1)

/-- The emitted window text `"\n".join(lines[s : e + 1]).strip()`. -/
def chunkText (lines : List String) (window : Int) (i : Nat) : String :=
  pyStrip (pyJoin "\n" (pySlice lines i (chunkEnd lines.length window i + 1)))

/-- The `while i < n` loop of `make_chunks`, with explicit fuel.  The source
loop advances `i` by `chunkStep stride ≥ 1` each iteration, so
`lines.length` fuel is always enough (claim C10 below). -/
def makeChunksFuel (lines : List String) (window stride : Int) :
    Nat → Nat → List (Nat × Int × String)
  | 0, _ => []
  | fuel + 1, i =>
    if i < lines.length then
      if chunkText lines window i = "" then
        makeChunksFuel lines window stride fuel (i + chunkStep stride)
      else
        (i, chunkEnd lines.length window i, chunkText lines window i) ::
          makeChunksFuel lines window stride fuel (i + chunkStep stride)
    else []

/-- `make_chunks(lines, window, stride)` (source defaults: window=4, stride=3). -/
def makeChunks (lines : List String) (window stride : Int) : List (Nat × Int × String) :=
  makeChunksFuel lines window stride lines.length 0

/-- A retrieval chunk (`Chunk` dataclass in retrieval.py). -/
structure Chunk where
  doc_id : String
  start_line : Nat
  end_line : Int
  text : String
deriving DecidableEq

instance : Inhabited Chunk := ⟨⟨"", 0, 0, ""⟩⟩

/-- Model of `np.argsort(scores)` (ascending index sort by score).  NumPy's
default sort is unstable, so any deterministic score-respecting order is a
faithful model; we use insertion sort. -/
def argsortAsc (scores : List ℚ) : List Nat :=
  List.insertionSort (fun a b => scores.getD a 0 ≤ scores.getD b 0) (List.range scores.length)

/-- Model of `np.argsort(scores)[::-1]`. -/
def argsortDesc (scores : List ℚ) : List Nat :=
  (argsortAsc scores).reverse

/-! ## Vector index (src/app/faiss_index.py) -/

/-- `eff_dims = min(dims, max(2, n_features - 1, 8))` from `FaissIndex.__init__`
(line 35).  `dims` is the configured `settings.svd_components`, an arbitrary
integer read from the environment. -/
def effDims (dims : Int) (nFeatures : Nat) : Int :=
  min dims (max 2 (max ((nFeatures : Int) - 1) 8))

/-- Build-time environment of `FaissIndex.__init__`: availability of the
optional `faiss` library, whether the TF-IDF vectorizer fit raised (e.g. an
empty vocabulary), and the resulting vocabulary size `n_features`. -/
structure FaissBuild where
  faissAvailable : Bool
  vecFitFails : Bool
  nFeatures : Nat
deriving DecidableEq

/-- Whether `FaissIndex.__init__` sets `self.enabled = True`.  It returns
early (disabled) when `faiss` is missing or `n_features < 3`; any exception
during the fit also leaves it disabled.  sklearn's `TruncatedSVD.fit` raises
unless `1 ≤ n_components < n_features`, so enabling requires
`1 ≤ eff_dims < n_features` — this models the library precondition that the
source relies on via its `try/except`. -/
def faissEnabled (b : FaissBuild) (dims : Int) : Bool :=
  if b.vecFitFails then false
  else if b.faissAvailable = false ∨ b.nFeatures < 3 then false
  else decide (1 ≤ effDims dims b.nFeatures ∧ effDims dims b.nFeatures < (b.nFeatures : Int))

/-- Query-time state of a built `FaissIndex` as seen from `KBIndex`:
the `enabled` flag, the inner products of the (reduced, normalized) query
vector against each stored vector, and a flag modelling the `try/except`
around the query path. -/
structure FaissParams where
  enabled : Bool
  score : String → Nat → ℚ
  qfail : String → Bool

/-- The inner products of the query against the `nDocs` stored vectors. -/
def faissScores (fp : FaissParams) (nDocs : Nat) (query : String) : List ℚ :=
  (List.range nDocs).map (fp.score query)

/-- The label row `I[0]` returned by FAISS `IndexFlatIP.search`: the `topK`
best labels in score order, padded with `-1` when fewer than `topK` vectors
are stored. -/
def faissLabels (fp : FaissParams) (nDocs : Nat) (query : String) (topK : Nat) : List Int :=
  ((argsortDesc (faissScores fp nDocs query)).map Int.ofNat
    ++ List.replicate (topK - nDocs) (-1)).take topK

/-- `FaissIndex.search(query, top_k)` (faiss_index.py lines 52-64).
`nDocs` is the number of vectors added at build time, which is the length of
the `texts` list the index was built from.  The source keeps the labels
`>= 0`. -/
def faissSearchModel (fp : FaissParams) (nDocs : Nat) (query : String) (topK : Nat) : List Nat :=
  if fp.enabled = false ∨ pyStrip query = "" then []
  else if fp.qfail query then []
  else ((faissLabels fp nDocs query topK).filter (fun i => 0 ≤ i)).map Int.toNat

/-! ## Reranker (src/app/reranker.py) -/

/-- The two reranker variants built by `build_reranker`.  `TfidfReranker`
fits a fresh TF-IDF space over `[query] + texts` and ranks by cosine
similarity; the HF CrossEncoder variant scores `(query, text)` pairs.  Both
similarity computations are library calls, modelled as score functions that
see the query and the full candidate text list. -/
inductive Reranker where
  | tfidf (cos : String → List String → Nat → ℚ)
  | hfce (predict : String → List String → Nat → ℚ)

/-- `texts = [c[1] for c in candidates] or [""]` from `TfidfReranker.rerank`:
an empty candidate list is replaced by a single empty text. -/
def rerankTexts (candidates : List (Nat × String)) : List String :=
  if candidates.isEmpty then [""] else candidates.map Prod.snd

/-- `rerank(query, candidates)` for both variants (reranker.py lines 29-34 and
51-55): score, then `list(np.argsort(scores)[::-1])`. -/
def Reranker.rerank : Reranker → String → List (Nat × String) → List Nat
  | .tfidf cos, q, candidates =>
    argsortDesc ((List.range (rerankTexts candidates).length).map (cos q (rerankTexts candidates)))
  | .hfce predict, q, candidates =>
    argsortDesc ((List.range (candidates.map Prod.snd).length).map
      (predict q (candidates.map Prod.snd)))

/-- The score vector a reranker variant sorts by (the argument of the
`np.argsort(...)[::-1]` in both `rerank` bodies): cosine similarities in the
fresh TF-IDF space for the deterministic variant, CrossEncoder pair scores
for the model variant. -/
def Reranker.scoresFor : Reranker → String → List (Nat × String) → List ℚ
  | .tfidf cos, q, candidates =>
    (List.range (rerankTexts candidates).length).map (cos q (rerankTexts candidates))
  | .hfce predict, q, candidates =>
    (List.range (candidates.map Prod.snd).length).map (predict q (candidates.map Prod.snd))

/-! ## Hybrid index (src/app/retrieval.py, class KBIndex) -/

/-- The state of a built `KBIndex`.  `bm25Built` is `self._bm25 is not None`
(the library is importable, the corpus is non-empty and `BM25_ENABLED` holds);
`fuzzAvailable` is `rapidfuzz` importability; `faiss` is `self.faiss`
(`none` when `settings.faiss_enabled` is false).  `lexScore q i` is the
TF-IDF dot product of query `q` with chunk `i`, `bm25Score qtok i` is
`BM25Okapi.get_scores(qtok)[i]`, and `fuzzScore a b` is
`rapidfuzz.fuzz.token_set_ratio(a, b)` (a value in 0..100). -/
structure KBIndex where
  chunks : List Chunk
  bm25Built : Bool
  fuzzAvailable : Bool
  faiss : Option FaissParams
  lexScore : String → Nat → ℚ
  bm25Score : List String → Nat → ℚ
  fuzzScore : String → String → ℚ
  reranker : Reranker

/-- `texts = [c.text for c in self.chunks] or ["placeholder"]`. -/
def KBIndex.texts (idx : KBIndex) : List String :=
  if idx.chunks.map Chunk.text = [] then ["placeholder"] else idx.chunks.map Chunk.text

/-- `self._empty = (texts == ["placeholder"])`. -/
def KBIndex.isEmptyKB (idx : KBIndex) : Prop :=
  idx.texts = ["placeholder"]

instance (idx : KBIndex) : Decidable idx.isEmptyKB :=
  inferInstanceAs (Decidable (idx.texts = ["placeholder"]))

/-- The number of rows of the TF-IDF matrix / BM25 corpus / FAISS store. -/
def KBIndex.numTexts (idx : KBIndex) : Nat :=
  idx.texts.length

/-- `self._bm25_corpus_tokens = [_tokenize(t) for t in texts]`. -/
def KBIndex.corpusTokens (idx : KBIndex) : List (List String) :=
  idx.texts.map pyTokenize

/-- The TF-IDF score row `(qv @ self.lex_mx.T).toarray().ravel()`. -/
def KBIndex.lexScores (idx : KBIndex) (query : String) : List ℚ :=
  (List.range idx.numTexts).map (idx.lexScore query)

/-- `KBIndex.lexical_topn(query, n)` (retrieval.py lines 153-161). -/
def KBIndex.lexicalTopn (idx : KBIndex) (query : String) (n : Nat) : List Nat :=
  if idx.isEmptyKB then []
  else if (idx.lexScores query).length = 0 then []
  else ((argsortDesc (idx.lexScores query)).take n).filter
    (fun i => 0 < (idx.lexScores query).getD i 0)

/-- The raw `self._bm25.get_scores(qtok)` vector. -/
def KBIndex.bm25Base (idx : KBIndex) (qtok : List String) : List ℚ :=
  (List.range idx.numTexts).map (idx.bm25Score qtok)

/-- The score vector after the fuzzy boost loop (retrieval.py lines 170-178):
chunks with a non-empty token list whose joined tokens have
`token_set_ratio / 100 > 0.85` with the joined query tokens receive
`+ 0.15 * (token_set_ratio / 100)`. -/
def KBIndex.bm25Boosted (idx : KBIndex) (qtok : List String) : List ℚ :=
  (List.range idx.numTexts).map (fun i =>
    if idx.corpusTokens.getD i [] = [] then (idx.bm25Base qtok).getD i 0
    else if 0.85 < idx.fuzzScore (pyJoin " " qtok) (pyJoin " " (idx.corpusTokens.getD i [])) / 100
    then (idx.bm25Base qtok).getD i 0 +
      0.15 * (idx.fuzzScore (pyJoin " " qtok) (pyJoin " " (idx.corpusTokens.getD i [])) / 100)
    else (idx.bm25Base qtok).getD i 0)

/-- The score vector `bm25_topn` sorts: boosted only when `rapidfuzz`
imported and the query has at most 3 tokens (retrieval.py line 169). -/
def KBIndex.bm25Scores (idx : KBIndex) (query : String) : List ℚ :=
  if idx.fuzzAvailable = true ∧ (pyTokenize query).length ≤ 3 then
    idx.bm25Boosted (pyTokenize query)
  else idx.bm25Base (pyTokenize query)

/-- `KBIndex.bm25_topn(query, n)` (retrieval.py lines 163-181). -/
def KBIndex.bm25Topn (idx : KBIndex) (query : String) (n : Nat) : List Nat :=
  if idx.bm25Built = false ∨ idx.isEmptyKB ∨ pyStrip query = "" then []
  else ((argsortDesc (idx.bm25Scores query)).take n).filter
    (fun i => 0 < (idx.bm25Scores query).getD i 0)

/-- `KBIndex.faiss_topn(query, n)` (retrieval.py lines 183-186).  The FAISS
store was built from the same `texts`, so it holds `numTexts` vectors. -/
def KBIndex.faissTopn (idx : KBIndex) (query : String) (n : Nat) : List Nat :=
  if idx.isEmptyKB then []
  else
    match idx.faiss with
    | none => []
    | some fp => faissSearchModel fp idx.numTexts query n

/-- The fused candidate id set of `hybrid_search` (retrieval.py lines
191-195): the union of the three top-25 lists.  A Python `set` is modelled as
a duplicate-free list; claims below depend only on membership. -/
def KBIndex.fusedCandidates (idx : KBIndex) (query : String) : List Nat :=
  (idx.lexicalTopn query 25 ++ idx.bm25Topn query 25 ++ idx.faissTopn query 25).dedup

/-- `candidates = [(i, self.chunks[i].text) for i in cand_ids]`.  The
source's `self.chunks[i]` lookup is modelled totally via `getD`; claim C9
shows the in-bounds side condition, so the default is never consulted. -/
def KBIndex.candList (idx : KBIndex) (query : String) : List (Nat × String) :=
  (idx.fusedCandidates query).map (fun i => (i, (idx.chunks.getD i default).text))

/-- `KBIndex.hybrid_search(query, top_k)` (retrieval.py lines 188-201):
rerank the fused candidates and keep the first `max(1, top_k)` of the
returned order. -/
def KBIndex.hybridSearch (idx : KBIndex) (query : String) (topK : Int) : List Chunk :=
  if pyStrip query = "" then []
  else if idx.fusedCandidates query = [] then []
  else
    (((idx.reranker.rerank query (idx.candList query)).take (max 1 topK).toNat).map
      (fun j => ((idx.candList query).getD j (0, "")).1)).map
      (fun i => idx.chunks.getD i default)

/-! ## Concrete indexes used to witness the theorems -/

/-- An index over a single chunk, with every library score equal to 1. -/
def idx1 : KBIndex where
  chunks := [⟨"d.md", 0, 0, "alpha"⟩]
  bm25Built := false
  fuzzAvailable := false
  faiss := none
  lexScore := fun _ _ => 1
  bm25Score := fun _ _ => 0
  fuzzScore := fun _ _ => 0
  reranker := .tfidf fun _ _ _ => 1

/-- An index built from an empty corpus. -/
def idx0 : KBIndex where
  chunks := []
  bm25Built := false
  fuzzAvailable := false
  faiss := none
  lexScore := fun _ _ => 1
  bm25Score := fun _ _ => 0
  fuzzScore := fun _ _ => 0
  reranker := .tfidf fun _ _ _ => 1

/-- A single-chunk index with BM25 and the fuzzy library available; the fuzzy
score is 90 against any non-empty string (and, as for `token_set_ratio`, 0
against the empty string). -/
def idx2 : KBIndex where
  chunks := [⟨"d.md", 0, 0, "alpha"⟩]
  bm25Built := true
  fuzzAvailable := true
  faiss := none
  lexScore := fun _ _ => 1
  bm25Score := fun _ _ => 1
  fuzzScore := fun _ t => if t = "" then 0 else 90
  reranker := .tfidf fun _ _ _ => 1

/-! ## Helper lemmas -/

theorem argsortAsc_perm (scores : List ℚ) :
    (argsortAsc scores).Perm (List.range scores.length) :=
  List.perm_insertionSort _ _

theorem argsortDesc_perm (scores : List ℚ) :
    (argsortDesc scores).Perm (List.range scores.length) :=
  (List.reverse_perm _).trans (argsortAsc_perm scores)

theorem mem_argsortDesc_lt (scores : List ℚ) {i : Nat} (h : i ∈ argsortDesc scores) :
    i < scores.length := by
  have := (argsortDesc_perm scores).mem_iff.mp h
  simpa using this

theorem argsortDesc_nodup (scores : List ℚ) : (argsortDesc scores).Nodup :=
  ((argsortDesc_perm scores).nodup_iff).mpr (List.nodup_range _)

theorem argsortDesc_length (scores : List ℚ) : (argsortDesc scores).length = scores.length := by
  simpa using (argsortDesc_perm scores).length_eq

theorem argsortDesc_sorted (scores : List ℚ) :
    (argsortDesc scores).Pairwise (fun a b => scores.getD b 0 ≤ scores.getD a 0) := by
  unfold argsortDesc argsortAsc
  rw [List.pairwise_reverse]
  haveI : IsTotal Nat (fun a b => scores.getD a 0 ≤ scores.getD b 0) :=
    ⟨fun a b => le_total _ _⟩
  haveI : IsTrans Nat (fun a b => scores.getD a 0 ≤ scores.getD b 0) :=
    ⟨fun _ _ _ hab hbc => le_trans hab hbc⟩
  exact List.sorted_insertionSort _ _

theorem rerank_eq_argsortDesc_scoresFor (r : Reranker) (q : String)
    (cs : List (Nat × String)) : r.rerank q cs = argsortDesc (r.scoresFor q cs) := by
  cases r <;> rfl

theorem lexicalTopn_lt (idx : KBIndex) (q : String) (n : Nat) :
    ∀ i ∈ idx.lexicalTopn q n, i < idx.numTexts := by
  intro i hi
  unfold KBIndex.lexicalTopn at hi
  split at hi
  · simp at hi
  · split at hi
    · simp at hi
    · have h1 := List.mem_of_mem_take (List.mem_of_mem_filter hi)
      have h2 := mem_argsortDesc_lt _ h1
      simpa [KBIndex.lexScores] using h2

theorem bm25Topn_lt (idx : KBIndex) (q : String) (n : Nat) :
    ∀ i ∈ idx.bm25Topn q n, i < idx.numTexts := by
  intro i hi
  unfold KBIndex.bm25Topn at hi
  split at hi
  · simp at hi
  · have h1 := List.mem_of_mem_take (List.mem_of_mem_filter hi)
    have h2 := mem_argsortDesc_lt _ h1
    unfold KBIndex.bm25Scores at h2
    split at h2 <;>
      simpa [KBIndex.bm25Boosted, KBIndex.bm25Base] using h2

theorem faissSearchModel_lt (fp : FaissParams) (nDocs : Nat) (q : String) (k : Nat) :
    ∀ i ∈ faissSearchModel fp nDocs q k, i < nDocs := by
  intro i hi
  unfold faissSearchModel at hi
  split at hi
  · simp at hi
  · split at hi
    · simp at hi
    · obtain ⟨x, hx, rfl⟩ := List.mem_map.mp hi
      have hx0 : (0 : Int) ≤ x := by simpa using List.of_mem_filter hx
      have hmem : x ∈ faissLabels fp nDocs q k := List.mem_of_mem_filter hx
      unfold faissLabels at hmem
      rcases List.mem_append.mp (List.mem_of_mem_take hmem) with hl | hr
      · obtain ⟨j, hj, rfl⟩ := List.mem_map.mp hl
        have hlt := mem_argsortDesc_lt _ hj
        simp only [faissScores, List.length_map, List.length_range] at hlt
        simpa using hlt
      · have := List.eq_of_mem_replicate hr
        omega

theorem faissTopn_lt (idx : KBIndex) (q : String) (n : Nat) :
    ∀ i ∈ idx.faissTopn q n, i < idx.numTexts := by
  intro i hi
  unfold KBIndex.faissTopn at hi
  split at hi
  · simp at hi
  · cases hf : idx.faiss with
    | none => rw [hf] at hi; simp at hi
    | some fp => rw [hf] at hi; exact faissSearchModel_lt fp idx.numTexts q n i hi

theorem lexicalTopn_of_empty (idx : KBIndex) (h : idx.isEmptyKB) (q : String) (n : Nat) :
    idx.lexicalTopn q n = [] := by
  unfold KBIndex.lexicalTopn
  rw [if_pos h]

theorem bm25Topn_of_empty (idx : KBIndex) (h : idx.isEmptyKB) (q : String) (n : Nat) :
    idx.bm25Topn q n = [] := by
  unfold KBIndex.bm25Topn
  rw [if_pos (Or.inr (Or.inl h))]

theorem faissTopn_of_empty (idx : KBIndex) (h : idx.isEmptyKB) (q : String) (n : Nat) :
    idx.faissTopn q n = [] := by
  unfold KBIndex.faissTopn
  rw [if_pos h]

theorem isEmptyKB_of_chunks_nil (idx : KBIndex) (h : idx.chunks = []) : idx.isEmptyKB := by
  unfold KBIndex.isEmptyKB KBIndex.texts
  rw [h]
  rfl

theorem numTexts_eq_chunks_length (idx : KBIndex) (h : ¬idx.isEmptyKB) :
    idx.numTexts = idx.chunks.length := by
  unfold KBIndex.isEmptyKB at h
  unfold KBIndex.numTexts KBIndex.texts
  unfold KBIndex.texts at h
  split at h
  · exact absurd rfl h
  · rename_i hne
    rw [if_neg hne]
    simp

theorem fusedCandidates_lt (idx : KBIndex) (q : String) :
    ∀ i ∈ idx.fusedCandidates q, i < idx.numTexts := by
  intro i hi
  unfold KBIndex.fusedCandidates at hi
  rw [List.mem_dedup] at hi
  rcases List.mem_append.mp hi with h12 | h3
  · rcases List.mem_append.mp h12 with h1 | h2
    · exact lexicalTopn_lt idx q 25 i h1
    · exact bm25Topn_lt idx q 25 i h2
  · exact faissTopn_lt idx q 25 i h3

theorem fusedCandidates_length_le (idx : KBIndex) (q : String) :
    (idx.fusedCandidates q).length ≤ idx.numTexts := by
  have hnd : (idx.fusedCandidates q).Nodup := List.nodup_dedup _
  calc (idx.fusedCandidates q).length
      = (idx.fusedCandidates q).toFinset.card := (List.toFinset_card_of_nodup hnd).symm
    _ ≤ (Finset.range idx.numTexts).card := by
        apply Finset.card_le_card
        intro x hx
        rw [List.mem_toFinset] at hx
        rw [Finset.mem_range]
        exact fusedCandidates_lt idx q x hx
    _ = idx.numTexts := Finset.card_range _

theorem fusedCandidates_of_empty (idx : KBIndex) (h : idx.isEmptyKB) (q : String) :
    idx.fusedCandidates q = [] := by
  unfold KBIndex.fusedCandidates
  rw [lexicalTopn_of_empty idx h, bm25Topn_of_empty idx h, faissTopn_of_empty idx h]
  rfl

theorem rerank_length (r : Reranker) (q : String) (cs : List (Nat × String))
    (h : cs.isEmpty = false) : (r.rerank q cs).length = cs.length := by
  cases r with
  | tfidf cos =>
    show (argsortDesc _).length = _
    rw [argsortDesc_length]
    simp [rerankTexts, h]
  | hfce p =>
    show (argsortDesc _).length = _
    rw [argsortDesc_length]
    simp

theorem chunkStep_pos (stride : Int) : 1 ≤ chunkStep stride := by
  unfold chunkStep
  have h := le_max_left 1 stride
  omega

theorem makeChunksFuel_congr (lines : List String) (w s : Int) :
    ∀ fuel fuel' i, lines.length - i ≤ fuel → lines.length - i ≤ fuel' →
      makeChunksFuel lines w s fuel i = makeChunksFuel lines w s fuel' i := by
  intro fuel
  induction fuel with
  | zero =>
    intro fuel' i h h'
    cases fuel' with
    | zero => rfl
    | succ f' =>
      show _ = makeChunksFuel lines w s (f' + 1) i
      unfold makeChunksFuel
      rw [if_neg (by omega)]
  | succ f ih =>
    intro fuel' i h h'
    cases fuel' with
    | zero =>
      show makeChunksFuel lines w s (f + 1) i = _
      unfold makeChunksFuel
      rw [if_neg (by omega)]
    | succ f' =>
      show makeChunksFuel lines w s (f + 1) i = makeChunksFuel lines w s (f' + 1) i
      unfold makeChunksFuel
      by_cases hi : i < lines.length
      · rw [if_pos hi, if_pos hi]
        have hstep := chunkStep_pos s
        rw [ih f' (i + chunkStep s) (by omega) (by omega)]
      · rw [if_neg hi, if_neg hi]

theorem makeChunksFuel_length_le (lines : List String) (w s : Int) :
    ∀ fuel i, (makeChunksFuel lines w s fuel i).length ≤ lines.length - i := by
  intro fuel
  induction fuel with
  | zero => intro i; simp [makeChunksFuel]
  | succ f ih =>
    intro i
    unfold makeChunksFuel
    by_cases hi : i < lines.length
    · rw [if_pos hi]
      have hstep := chunkStep_pos s
      have h1 := ih (i + chunkStep s)
      split
      · omega
      · simp only [List.length_cons]
        omega
    · rw [if_neg hi]
      simp

/-! ## Claim theorems -/

/-- C7 (confirmed): `hybrid_search` returns the empty sequence, not an
error, on the empty query and on a whitespace-only query such as three
spaces, for every integer `top_k` and every index state. -/
theorem empty_query_law (idx : KBIndex) (k : Int) :
    idx.hybridSearch "" k = [] ∧ idx.hybridSearch "   " k = [] := by
  constructor <;>
    · unfold KBIndex.hybridSearch
      rw [if_pos (by decide)]

/-- C8 (confirmed): the fused candidate set assembled by `hybrid_search`
(the set union of the three enabled signals' top-25 lists) contains every
index returned by `lexical_topn` alone for the same query. -/
theorem fusion_superset (idx : KBIndex) (q : String) :
    ∀ i ∈ idx.lexicalTopn q 25, i ∈ idx.fusedCandidates q := by
  intro i hi
  unfold KBIndex.fusedCandidates
  rw [List.mem_dedup]
  exact List.mem_append_left _ (List.mem_append_left _ hi)

/-- C8 witness: on the concrete one-chunk index `idx1`, chunk 0 is returned
by the lexical signal and is indeed in the fused candidate set. -/
theorem fusion_superset_witness : 0 ∈ idx1.fusedCandidates "alpha" :=
  fusion_superset idx1 "alpha" 0 (by decide)

/-- C9 (confirmed): on an index whose chunk list is non-empty, every index
returned by `lexical_topn`, `bm25_topn` and `faiss_topn` is strictly below
the chunk-array length, so the `self.chunks[i]` lookups of `hybrid_search`
are in bounds; on an index built from an empty corpus all three signals
return the empty list. -/
theorem topn_in_bounds (idx : KBIndex) (q : String) (n : Nat) :
    (idx.chunks ≠ [] →
      (∀ i ∈ idx.lexicalTopn q n, i < idx.chunks.length) ∧
      (∀ i ∈ idx.bm25Topn q n, i < idx.chunks.length) ∧
      (∀ i ∈ idx.faissTopn q n, i < idx.chunks.length)) ∧
    (idx.chunks = [] →
      idx.lexicalTopn q n = [] ∧ idx.bm25Topn q n = [] ∧ idx.faissTopn q n = []) := by
  constructor
  · intro _
    by_cases he : idx.isEmptyKB
    · rw [lexicalTopn_of_empty idx he, bm25Topn_of_empty idx he, faissTopn_of_empty idx he]
      exact ⟨by simp, by simp, by simp⟩
    · have hn := numTexts_eq_chunks_length idx he
      exact ⟨fun i hi => hn ▸ lexicalTopn_lt idx q n i hi,
        fun i hi => hn ▸ bm25Topn_lt idx q n i hi,
        fun i hi => hn ▸ faissTopn_lt idx q n i hi⟩
  · intro hc
    have he := isEmptyKB_of_chunks_nil idx hc
    exact ⟨lexicalTopn_of_empty idx he q n, bm25Topn_of_empty idx he q n,
      faissTopn_of_empty idx he q n⟩

/-- C9 witness: applied to the concrete non-empty index `idx1` (whose lexical
signal returns chunk 0) and to the empty-corpus index `idx0`. -/
theorem topn_in_bounds_witness :
    (0 : Nat) < idx1.chunks.length ∧ idx0.lexicalTopn "alpha" 5 = [] :=
  ⟨((topn_in_bounds idx1 "alpha" 25).1 (by decide)).1 0 (by decide),
   ((topn_in_bounds idx0 "alpha" 5).2 rfl).1⟩

/-- C1 counterexample: the claim `len(hybrid_search(q, k)) ≤ k` fails for the
integer `k = 0`: on the one-chunk index `idx1` the source computes
`order[: max(1, 0)] = order[:1]` and returns one chunk. -/
theorem hybrid_search_topk_cex :
    idx1.hybridSearch "alpha" 0 = [⟨"d.md", 0, 0, "alpha"⟩] ∧
    ¬((idx1.hybridSearch "alpha" 0).length ≤ 0) := by
  decide

/-- C1 (corrected): the source truncates to `max(1, top_k)` entries, so for
every integer `k` the result has at most `max(1, k)` entries — hence at most
`k` whenever `k ≥ 1`, and at most one entry when `k ≤ 0`; the bound by the
number of chunks in the live index (array position is chunk identity,
spec §3) also holds for every integer `k`. -/
theorem hybrid_search_topk_bound (idx : KBIndex) (q : String) (k : Int) :
    (idx.hybridSearch q k).length ≤ (max 1 k).toNat ∧
    (1 ≤ k → (idx.hybridSearch q k).length ≤ k.toNat) ∧
    (idx.hybridSearch q k).length ≤ idx.chunks.length := by
  unfold KBIndex.hybridSearch
  by_cases h1 : pyStrip q = ""
  · rw [if_pos h1]
    exact ⟨Nat.zero_le _, fun _ => Nat.zero_le _, Nat.zero_le _⟩
  rw [if_neg h1]
  by_cases h2 : idx.fusedCandidates q = []
  · rw [if_pos h2]
    exact ⟨Nat.zero_le _, fun _ => Nat.zero_le _, Nat.zero_le _⟩
  rw [if_neg h2]
  have hne : ¬idx.isEmptyKB := fun he => h2 (fusedCandidates_of_empty idx he q)
  have hcne : (idx.candList q).isEmpty = false := by
    unfold KBIndex.candList
    simp only [List.isEmpty_eq_false, ne_eq, List.map_eq_nil_iff]
    exact h2
  have horder := rerank_length idx.reranker q (idx.candList q) hcne
  have hcands : (idx.candList q).length = (idx.fusedCandidates q).length := by
    unfold KBIndex.candList
    simp
  simp only [List.length_map, List.length_take]
  refine ⟨min_le_left _ _, ?_, ?_⟩
  · intro hk
    have hmax : max 1 k = k := max_eq_right hk
    calc min (max 1 k).toNat (idx.reranker.rerank q (idx.candList q)).length
        ≤ (max 1 k).toNat := min_le_left _ _
      _ = k.toNat := by rw [hmax]
  · calc min (max 1 k).toNat (idx.reranker.rerank q (idx.candList q)).length
        ≤ (idx.reranker.rerank q (idx.candList q)).length := min_le_right _ _
      _ = (idx.candList q).length := horder
      _ = (idx.fusedCandidates q).length := hcands
      _ ≤ idx.numTexts := fusedCandidates_length_le idx q
      _ = idx.chunks.length := numTexts_eq_chunks_length idx hne

/-- C1 witness: the amended bounds applied at the concrete index `idx1`, at
`k = 0` (where `max(1, k)` bites) and at `k = 1`. -/
theorem hybrid_search_topk_bound_witness :
    (idx1.hybridSearch "alpha" 0).length ≤ (max 1 (0 : Int)).toNat ∧
    (idx1.hybridSearch "alpha" 1).length ≤ (1 : Int).toNat ∧
    (idx1.hybridSearch "alpha" 1).length ≤ idx1.chunks.length :=
  ⟨(hybrid_search_topk_bound idx1 "alpha" 0).1,
   (hybrid_search_topk_bound idx1 "alpha" 1).2.1 (by decide),
   (hybrid_search_topk_bound idx1 "alpha" 1).2.2⟩

/-- C5 counterexample: on the empty candidate list the deterministic
reranker's `texts = [...] or [""]` fallback makes it score one placeholder
text and return `[0]`, which is not a permutation of the (empty) list of
candidate positions. -/
theorem rerank_empty_cex :
    ¬(((Reranker.tfidf fun _ _ _ => (1 : ℚ)).rerank "q" ([] : List (Nat × String))).Perm
      (List.range ([] : List (Nat × String)).length)) := by
  decide

/-- C5 (corrected): for every non-empty candidate list, both reranker
variants return a permutation of the candidate list positions
`0 .. len(candidates) - 1`, ordered best-first: along the returned order the
variant's relevance scores (`scoresFor`, the vector both variants argsort)
are non-increasing. -/
theorem rerank_permutation (r : Reranker) (q : String) (cs : List (Nat × String))
    (h : cs ≠ []) :
    (r.rerank q cs).Perm (List.range cs.length) ∧
    (r.rerank q cs).Pairwise
      (fun a b => (r.scoresFor q cs).getD b 0 ≤ (r.scoresFor q cs).getD a 0) := by
  constructor
  · have hb : cs.isEmpty = false := by simpa [List.isEmpty_eq_false]
    cases r with
    | tfidf cos =>
      have hp := argsortDesc_perm
        ((List.range (rerankTexts cs).length).map (cos q (rerankTexts cs)))
      have hlen : (rerankTexts cs).length = cs.length := by
        simp [rerankTexts, hb]
      show (argsortDesc _).Perm _
      simpa [hlen] using hp
    | hfce p =>
      have hp := argsortDesc_perm
        ((List.range (cs.map Prod.snd).length).map (p q (cs.map Prod.snd)))
      show (argsortDesc _).Perm _
      simpa using hp
  · rw [rerank_eq_argsortDesc_scoresFor]
    exact argsortDesc_sorted _

/-- C5 witness: permutation and non-increasing-score order applied at a
concrete singleton candidate list. -/
theorem rerank_permutation_witness :
    ((Reranker.tfidf fun _ _ _ => (1 : ℚ)).rerank "q" [(5, "a")]).Perm (List.range 1) ∧
    ((Reranker.tfidf fun _ _ _ => (1 : ℚ)).rerank "q" [(5, "a")]).Pairwise
      (fun a b =>
        ((Reranker.tfidf fun _ _ _ => (1 : ℚ)).scoresFor "q" [(5, "a")]).getD b 0 ≤
          ((Reranker.tfidf fun _ _ _ => (1 : ℚ)).scoresFor "q" [(5, "a")]).getD a 0) :=
  rerank_permutation (Reranker.tfidf fun _ _ _ => (1 : ℚ)) "q" [(5, "a")] (by decide)

/-- C3 counterexample: with `SVD_COMPONENTS = 1` configured and a vocabulary
of 10 features, the vector index enables itself with an effective dimension
of 1, violating the claimed floor of 2. -/
theorem faiss_eff_dims_cex :
    faissEnabled ⟨true, false, 10⟩ 1 = true ∧ effDims 1 10 < 2 := by
  decide

/-- C3 (corrected): whenever the vector index enables itself, the fitted
dimension equals `min(configured_dims, max(2, n_features - 1, 8))` and is
strictly below the vocabulary size; it is at least 2 only when the
configured dimension is at least 2 (the inner `max` has floor 8 ≥ 2, but a
configured value below 2 wins the outer `min`). -/
theorem faiss_eff_dims (b : FaissBuild) (dims : Int) (h : faissEnabled b dims = true) :
    effDims dims b.nFeatures = min dims (max 2 (max ((b.nFeatures : Int) - 1) 8)) ∧
    effDims dims b.nFeatures < (b.nFeatures : Int) ∧
    (2 ≤ dims → 2 ≤ effDims dims b.nFeatures) := by
  unfold faissEnabled at h
  split at h
  · simp at h
  split at h
  · simp at h
  refine ⟨rfl, (of_decide_eq_true h).2, ?_⟩
  intro h2
  unfold effDims
  exact le_min h2 (le_max_left _ _)

/-- C3 witness: the corrected statement applied at a concrete enabled build
(10 features, configured dimension 8). -/
theorem faiss_eff_dims_witness :
    effDims 8 (10 : Nat) = min 8 (max 2 (max (((10 : Nat) : Int) - 1) 8)) ∧
    effDims 8 (10 : Nat) < ((10 : Nat) : Int) ∧
    (2 ≤ (8 : Int) → 2 ≤ effDims 8 (10 : Nat)) :=
  faiss_eff_dims ⟨true, false, 10⟩ 8 (by decide)

/-- C10 (confirmed): `make_chunks` terminates on every input.  The loop
index advances by `chunkStep stride = max(1, stride) ≥ 1` per iteration even
for `stride ≤ 0`, so `lines.length` loop iterations (fuel) always suffice —
any larger fuel computes the same result — and the loop emits at most one
chunk per line. -/
theorem make_chunks_terminates (lines : List String) (window stride : Int) :
    1 ≤ chunkStep stride ∧
    (∀ fuel, lines.length ≤ fuel →
      makeChunksFuel lines window stride fuel 0 = makeChunks lines window stride) ∧
    (makeChunks lines window stride).length ≤ lines.length := by
  refine ⟨chunkStep_pos stride, ?_, ?_⟩
  · intro fuel hf
    exact makeChunksFuel_congr lines window stride fuel lines.length 0 (by omega) (by omega)
  · have h := makeChunksFuel_length_le lines window stride lines.length 0
    simpa [makeChunks] using h

/-- C10 witness: on a concrete two-line document, running the loop with any
fuel beyond the line count (here 7) gives the same chunks. -/
theorem make_chunks_terminates_witness :
    makeChunksFuel ["a", "b"] 4 3 7 0 = makeChunks ["a", "b"] 4 3 :=
  (make_chunks_terminates ["a", "b"] 4 3).2.1 7 (by decide)

theorem stripChars_eq_nil_iff (l : List Char) :
    stripChars l = [] ↔ ∀ c ∈ l, c.isWhitespace = true := by
  unfold stripChars
  rw [List.reverse_eq_nil_iff, List.dropWhile_eq_nil_iff]
  constructor
  · intro h c hc
    have hmem : c ∈ l.takeWhile Char.isWhitespace ∨ c ∈ l.dropWhile Char.isWhitespace := by
      rw [← List.mem_append]
      rw [List.takeWhile_append_dropWhile]
      exact hc
    rcases hmem with h1 | h2
    · exact List.mem_takeWhile_imp h1
    · exact h c (List.mem_reverse.mpr h2)
  · intro h c hc
    exact h c ((List.dropWhile_sublist _).subset (List.mem_reverse.mp hc))

theorem pyStrip_eq_empty_iff (s : String) :
    pyStrip s = "" ↔ ∀ c ∈ s.data, c.isWhitespace = true := by
  unfold pyStrip
  rw [show ("" : String) = ⟨[]⟩ from rfl]
  constructor
  · intro h
    exact (stripChars_eq_nil_iff s.data).mp (congrArg String.data h)
  · intro h
    exact congrArg String.mk ((stripChars_eq_nil_iff s.data).mpr h)

theorem mem_data_pyJoin (sep : String) :
    ∀ (ls : List String), ∀ x ∈ ls, ∀ c ∈ x.data, c ∈ (pyJoin sep ls).data := by
  intro ls
  induction ls with
  | nil => intro x hx; cases hx
  | cons y ys ih =>
    intro x hx c hc
    cases ys with
    | nil =>
      rw [List.mem_singleton] at hx
      subst hx
      exact hc
    | cons z zs =>
      rcases List.mem_cons.mp hx with rfl | hx'
      · show c ∈ ((x ++ sep) ++ pyJoin sep (z :: zs)).data
        rw [String.data_append, String.data_append]
        exact List.mem_append_left _ (List.mem_append_left _ hc)
      · show c ∈ ((y ++ sep) ++ pyJoin sep (z :: zs)).data
        rw [String.data_append]
        exact List.mem_append_right _ (ih x hx' c hc)

theorem pyStrip_pyJoin_ne_empty (sep : String) (ls : List String) (x : String)
    (hx : x ∈ ls) (hne : pyStrip x ≠ "") : pyStrip (pyJoin sep ls) ≠ "" := by
  intro hcon
  apply hne
  rw [pyStrip_eq_empty_iff] at hcon ⊢
  intro c hc
  exact hcon c (mem_data_pyJoin sep ls x hx c hc)

theorem getElem_mem_pySlice (lines : List String) (i : Nat) (stop : Int)
    (hi : i < lines.length) (hstop : (i : Int) < stop) :
    lines[i] ∈ pySlice lines i stop := by
  unfold pySlice
  rw [if_neg (by omega : ¬stop < 0)]
  have hm : i < stop.toNat := by omega
  have hlen : 0 < ((lines.take stop.toNat).drop i).length := by
    simp only [List.length_drop, List.length_take]
    omega
  have he : ((lines.take stop.toNat).drop i)[0] = lines[i] := by
    rw [List.getElem_drop]
    rw [List.getElem_take]
    simp
  rw [← he]
  exact List.getElem_mem hlen

theorem cover_aux (lines : List String) (window stride : Int)
    (hs1 : 1 ≤ stride) (hsw : stride ≤ window)
    (hlines : ∀ ln ∈ lines, pyStrip ln ≠ "") :
    ∀ fuel i j, lines.length - i ≤ fuel → i ≤ j → j < lines.length →
      ∃ c ∈ makeChunksFuel lines window stride fuel i, c.1 ≤ j ∧ (j : Int) ≤ c.2.1 := by
  intro fuel
  induction fuel with
  | zero => intro i j h hij hj; omega
  | succ f ih =>
    intro i j h hij hj
    have hi : i < lines.length := Nat.lt_of_le_of_lt hij hj
    have hw1 : (1 : Int) ≤ window := le_trans hs1 hsw
    have hemit : chunkText lines window i ≠ "" := by
      unfold chunkText
      apply pyStrip_pyJoin_ne_empty "\n" _ lines[i]
      · apply getElem_mem_pySlice lines i _ hi
        unfold chunkEnd
        omega
      · exact hlines _ (List.getElem_mem hi)
    have hstep1 := chunkStep_pos stride
    have hstepw : (chunkStep stride : Int) ≤ window := by
      unfold chunkStep
      rw [max_eq_right hs1]
      omega
    by_cases hcase : j < i + chunkStep stride
    · refine ⟨(i, chunkEnd lines.length window i, chunkText lines window i), ?_, hij, ?_⟩
      · show _ ∈ makeChunksFuel lines window stride (f + 1) i
        unfold makeChunksFuel
        rw [if_pos hi, if_neg hemit]
        exact List.mem_cons_self _ _
      · show (j : Int) ≤ chunkEnd lines.length window i
        unfold chunkEnd
        omega
    · obtain ⟨c, hc, h1, h2⟩ := ih (i + chunkStep stride) j (by omega) (by omega) hj
      refine ⟨c, ?_, h1, h2⟩
      show _ ∈ makeChunksFuel lines window stride (f + 1) i
      unfold makeChunksFuel
      rw [if_pos hi]
      split
      · exact hc
      · exact List.mem_cons_of_mem _ hc

/-- C2 counterexample: a document consisting of one whitespace-only line,
chunked with the defaults `window = 4 ≥ stride = 3`: the window's trimmed
text is empty, so no chunk is emitted and line 0 is uncovered. -/
theorem chunk_coverage_cex :
    (3 : Int) ≤ 4 ∧ 0 < ([""] : List String).length ∧
    ¬∃ c ∈ makeChunks [""] 4 3, c.1 ≤ 0 ∧ (0 : Int) ≤ c.2.1 := by
  decide

/-- C2 (corrected): chunking with `1 ≤ stride ≤ window` covers every line
index of the document by some emitted chunk's `[start, end]` range, provided
every line keeps a non-whitespace character (which the document loader
guarantees by dropping noise/blank lines); a whitespace-only window is
dropped by the `if txt:` guard and can leave its lines uncovered. -/
theorem chunk_coverage (lines : List String) (window stride : Int)
    (hs1 : 1 ≤ stride) (hsw : stride ≤ window)
    (hlines : ∀ ln ∈ lines, pyStrip ln ≠ "") :
    ∀ j < lines.length, ∃ c ∈ makeChunks lines window stride,
      c.1 ≤ j ∧ (j : Int) ≤ c.2.1 := by
  intro j hj
  exact cover_aux lines window stride hs1 hsw hlines lines.length 0 j (by omega)
    (Nat.zero_le j) hj

/-- C2 witness: on a concrete two-line document with the default parameters,
line 1 is covered. -/
theorem chunk_coverage_witness :
    ∃ c ∈ makeChunks ["a", "b"] 4 3, c.1 ≤ 1 ∧ (1 : Int) ≤ c.2.1 :=
  chunk_coverage ["a", "b"] 4 3 (by decide) (by decide) (by decide) 1 (by decide)

theorem makeChunksFuel_shape (lines : List String) (window stride : Int) :
    ∀ fuel i, ∀ c ∈ makeChunksFuel lines window stride fuel i,
      c.1 < lines.length ∧ c.2.1 = chunkEnd lines.length window c.1 ∧
      c.2.2 = chunkText lines window c.1 := by
  intro fuel
  induction fuel with
  | zero => intro i c hc; simp [makeChunksFuel] at hc
  | succ f ih =>
    intro i c hc
    unfold makeChunksFuel at hc
    by_cases hi : i < lines.length
    · rw [if_pos hi] at hc
      split at hc
      · exact ih _ c hc
      · rcases List.mem_cons.mp hc with rfl | hc'
        · exact ⟨hi, rfl, rfl⟩
        · exact ih _ c hc'
    · rw [if_neg hi] at hc
      cases hc

/-- C4 counterexample: for the document `["a "]` (one line with a trailing
space) the emitted chunk's text is the trimmed string `"a"`, which differs
from the newline-joined slice `"a "` of lines `[0, 0]`. -/
theorem chunk_text_cex :
    makeChunks ["a "] 4 3 = [(0, (0 : Int), "a")] ∧
    pyJoin "\n" (((["a "] : List String).take 1).drop 0) = "a " ∧
    ("a" : String) ≠ "a " := by
  decide

/-- C4 (corrected): for `window ≥ 1` every chunk's text equals the
newline-joined slice of lines `[start_line, end_line]` only after trimming
surrounding whitespace (`.strip()` in the source). -/
theorem chunk_text_trimmed_slice (lines : List String) (window stride : Int)
    (hw : 1 ≤ window) :
    ∀ c ∈ makeChunks lines window stride,
      c.2.2 = pyStrip (pyJoin "\n" ((lines.take (c.2.1.toNat + 1)).drop c.1)) := by
  intro c hc
  obtain ⟨h1, h2, h3⟩ := makeChunksFuel_shape lines window stride lines.length 0 c hc
  have h0 : 0 ≤ chunkEnd lines.length window c.1 := by
    unfold chunkEnd
    omega
  rw [h3, h2]
  unfold chunkText pySlice
  rw [if_neg (by omega : ¬chunkEnd lines.length window c.1 + 1 < 0)]
  rw [show (chunkEnd lines.length window c.1 + 1).toNat =
    (chunkEnd lines.length window c.1).toNat + 1 by omega]

/-- C4 witness: the trimmed-slice equation applied to the concrete chunk
produced from `["a "]`. -/
theorem chunk_text_trimmed_slice_witness :
    ("a" : String) =
      pyStrip (pyJoin "\n" (((["a "] : List String).take ((0 : Int).toNat + 1)).drop 0)) :=
  chunk_text_trimmed_slice ["a "] 4 3 (by decide) (0, (0 : Int), "a") (by decide)

/-- C6 (confirmed): in `bm25_topn`, when `rapidfuzz` is available and the
query tokenizes to at most 3 tokens, every chunk whose joined token string
has fuzzy similarity `s = token_set_ratio / 100 > 0.85` with the joined
query tokens gets `0.15 * s` added to its BM25 score, and the returned list
is the descending sort of exactly these boosted scores truncated to the top
`n` strictly positive entries.  The hypothesis `hlib` records the rapidfuzz
property `token_set_ratio(a, "") = 0`, which is what the source's
`if not toks: continue` short-circuit relies on. -/
theorem bm25_fuzzy_boost (idx : KBIndex) (q : String) (n : Nat) (i : Nat)
    (hb : idx.bm25Built = true) (hne : ¬idx.isEmptyKB) (hq : pyStrip q ≠ "")
    (hfz : idx.fuzzAvailable = true) (hlen : (pyTokenize q).length ≤ 3)
    (hi : i < idx.numTexts)
    (hlib : ∀ a, idx.fuzzScore a "" = 0)
    (hsim : (0.85 : ℚ) < idx.fuzzScore (pyJoin " " (pyTokenize q))
      (pyJoin " " (idx.corpusTokens.getD i [])) / 100) :
    (idx.bm25Boosted (pyTokenize q)).getD i 0 =
      (idx.bm25Base (pyTokenize q)).getD i 0 +
        0.15 * (idx.fuzzScore (pyJoin " " (pyTokenize q))
          (pyJoin " " (idx.corpusTokens.getD i [])) / 100) ∧
    idx.bm25Topn q n =
      ((argsortDesc (idx.bm25Boosted (pyTokenize q))).take n).filter
        (fun j => 0 < (idx.bm25Boosted (pyTokenize q)).getD j 0) := by
  have htoks : idx.corpusTokens.getD i [] ≠ [] := by
    intro h0
    rw [h0, show pyJoin " " ([] : List String) = "" from rfl, hlib] at hsim
    norm_num at hsim
  constructor
  · unfold KBIndex.bm25Boosted
    rw [List.getD_eq_getElem _ _ (by simpa using hi)]
    rw [List.getElem_map, List.getElem_range]
    rw [if_neg htoks, if_pos hsim]
  · unfold KBIndex.bm25Topn
    rw [if_neg (by simp [hb, hne, hq])]
    unfold KBIndex.bm25Scores
    rw [if_pos ⟨hfz, hlen⟩]

/-- C6 witness: the boost equation and the sorted/truncated form at the
concrete index `idx2` (one chunk `"alpha"`, fuzzy score 90) for the 1-token
query `"alfa"`. -/
theorem bm25_fuzzy_boost_witness :
    (idx2.bm25Boosted (pyTokenize "alfa")).getD 0 0 =
      (idx2.bm25Base (pyTokenize "alfa")).getD 0 0 +
        0.15 * (idx2.fuzzScore (pyJoin " " (pyTokenize "alfa"))
          (pyJoin " " (idx2.corpusTokens.getD 0 [])) / 100) ∧
    idx2.bm25Topn "alfa" 25 =
      ((argsortDesc (idx2.bm25Boosted (pyTokenize "alfa"))).take 25).filter
        (fun j => 0 < (idx2.bm25Boosted (pyTokenize "alfa")).getD j 0) :=
  bm25_fuzzy_boost idx2 "alfa" 25 0 rfl (by decide) (by decide) rfl (by decide) (by decide)
    (fun _ => rfl)
    (by
      rw [show idx2.fuzzScore (pyJoin " " (pyTokenize "alfa"))
        (pyJoin " " (idx2.corpusTokens.getD 0 [])) = 90 from by decide]
      norm_num)
